import Mathlib

/-!
Verification development for the Borge-Accounting document pipeline.

The definitions below are a shallow embedding of the Python sources:

* `src/backend/app/services/workflow_engine.py` — contexts are embedded as
  association lists with Python-dict semantics (insertion order kept, a
  repeated write replacing the value in place), step runners as pure
  functions returning `Except` (a raised exception becomes `Except.error`
  carrying the exception message), and the audit sink as the list of
  emitted events returned alongside the final context.  Since the Python
  engine mutates `context` in place and the exception propagates past the
  caller while the dict keeps its mutated contents, `runWorkflow` returns
  the context together with an optional error message instead of losing
  the context on failure.
* `src/backend/app/services/rule_validation_service.py` and
  `src/backend/app/services/confidence_scoring_service.py` — Python `str`
  values that are inspected character by character are embedded as
  `List Char`; `float` arithmetic is embedded as exact rational
  arithmetic, with Python's `round(x, 2)` (round half to even) embedded
  as `round2`.
-/

namespace Borge

/-! ### Context dictionaries (Python `dict` with string keys) -/

/-- An ordered mapping from field names to values, as in a Python dict. -/
abbrev Ctx (V : Type) := List (String × V)

/-- Value stored under key `k`, if any (the first entry wins, matching a
dict where keys are unique). -/
def lookupCtx {V : Type} : Ctx V → String → Option V
  | [], _ => none
  | (k', v) :: rest, k => if k' = k then some v else lookupCtx rest k

/-- The keys of a context, in insertion order (`list(d.keys())`). -/
def keysCtx {V : Type} (c : Ctx V) : List String :=
  c.map Prod.fst

/-- Python's `k in d` membership test. -/
def hasKey {V : Type} (c : Ctx V) (k : String) : Bool :=
  decide (k ∈ keysCtx c)

/-- Python's `d[k] = v`: replace the value in place if the key exists,
otherwise append the new entry at the end. -/
def setKey {V : Type} : Ctx V → String → V → Ctx V
  | [], k, v => [(k, v)]
  | (k', v') :: rest, k, v =>
    if k' = k then (k, v) :: rest else (k', v') :: setKey rest k v

/-- Python's `c.update(u)`: write every entry of `u` into `c`, in order. -/
def dictUpdate {V : Type} (c u : Ctx V) : Ctx V :=
  u.foldl (fun acc p => setKey acc p.1 p.2) c

/-! ### Workflow engine (`workflow_engine.py`) -/

/-- Embedding of `StepDef`: a workflow step with safe dataflow.  The
source also stores an externality flag used only to tag audit logging of
outside calls; it plays no role in the engine's control flow and is not
needed here.  A runner that raises is embedded as returning
`Except.error` with the exception message (`str(e)`). -/
structure StepDef (V : Type) where
  name : String
  allowed_inputs : List String
  allowed_outputs : List String
  run : Ctx V → Except String (Ctx V)

/-- One audit log entry as written by `run_workflow` through
`audit_service.log_action` (`action="workflow_step"`); the fields are the
metadata entries that do not depend on wall-clock time.  A success event
carries no error message. -/
structure AuditEvent where
  trigger : String
  step : String
  input_keys : List String
  output_keys : List String
  success : Bool
  error : Option String
deriving DecidableEq

/-- Embedding of `_filter_context`:
`{k: context[k] for k in allowed_keys if k in context}`. -/
def filterContext {V : Type} (context : Ctx V) (allowed_keys : List String) : Ctx V :=
  allowed_keys.filterMap (fun k => (lookupCtx context k).map (fun v => (k, v)))

/-- Embedding of `_validate_output`: scan the update keys in order and
fail on the first one that is not an allowed output. -/
def validateOutput {V : Type} : Ctx V → List String → Except String Unit
  | [], _ => Except.ok ()
  | (k, _) :: rest, allowed_outputs =>
    if k ∈ allowed_outputs then validateOutput rest allowed_outputs
    else Except.error ("Step produced disallowed output key: " ++ k)

/-- The merge-and-validate operation of the spec: the
`_validate_output(updates, ...)` check followed by `context.update(updates)`
exactly as the two are run back to back inside `run_workflow`.  On a
validation error nothing is merged (the unmodified `context` stays with
the caller); on success all updates are merged at once. -/
def mergeAndValidate {V : Type} (context updates : Ctx V)
    (allowed_outputs : List String) : Except String (Ctx V) :=
  match validateOutput updates allowed_outputs with
  | Except.error e => Except.error e
  | Except.ok _ => Except.ok (dictUpdate context updates)

/-- Embedding of `run_workflow`: run the steps in order against the
context, emitting one audit event per attempted step.  The result is the
list of emitted events, the context as the caller sees it afterwards, and
`some` error message when a step raised (the Python exception propagates
after the failure event is logged; the caller's dict keeps the updates of
the earlier, successful steps). -/
def runWorkflow {V : Type} (trigger : String) (context : Ctx V) :
    List (StepDef V) → List AuditEvent × Ctx V × Option String
  | [] => ([], context, none)
  | step :: rest =>
    let input_keys := step.allowed_inputs.filter (fun k => hasKey context k)
    let step_input := filterContext context step.allowed_inputs
    match step.run step_input with
    | Except.error e =>
      ([⟨trigger, step.name, input_keys, [], false, some e⟩], context, some e)
    | Except.ok updates =>
      match validateOutput updates step.allowed_outputs with
      | Except.error e =>
        ([⟨trigger, step.name, input_keys, [], false, some e⟩], context, some e)
      | Except.ok _ =>
        let ctx2 := dictUpdate context updates
        let ev : AuditEvent :=
          ⟨trigger, step.name, input_keys, keysCtx updates, true, none⟩
        let r := runWorkflow trigger ctx2 rest
        (ev :: r.1, r.2)

/-- The outcome of attempting one step on a given context: the validated
updates, or the error message of the raised exception or contract
violation. -/
def stepResult {V : Type} (s : StepDef V) (c : Ctx V) : Except String (Ctx V) :=
  match s.run (filterContext c s.allowed_inputs) with
  | Except.error e => Except.error e
  | Except.ok updates =>
    match validateOutput updates s.allowed_outputs with
    | Except.error e => Except.error e
    | Except.ok _ => Except.ok updates

/-- The list of validated output mappings produced by a run of the given
steps, when every one of them succeeds. -/
def stepOutputs {V : Type} : List (StepDef V) → Ctx V → Option (List (Ctx V))
  | [], _ => some []
  | s :: rest, c =>
    match stepResult s c with
    | Except.error _ => none
    | Except.ok u => (stepOutputs rest (dictUpdate c u)).map (fun us => u :: us)

/-- A context updated, in order, with each of a list of output mappings. -/
def ctxFold {V : Type} (c : Ctx V) (us : List (Ctx V)) : Ctx V :=
  us.foldl dictUpdate c

/-! ### Rule validation (`rule_validation_service.py`) -/

/-- Python strings inspected by the validation services, embedded as
their character lists. -/
abbrev Str := List Char

/-- Python's `s.strip()`: drop leading and trailing whitespace. -/
def pyStrip (s : Str) : Str :=
  ((s.dropWhile Char.isWhitespace).reverse.dropWhile Char.isWhitespace).reverse

/-- Python's `s.isdigit()` on the ASCII strings in scope: non-empty and
all digits. -/
def pyIsDigit (s : Str) : Bool :=
  !s.isEmpty && s.all Char.isDigit

/-- Python's `int(s)` on an all-digit string. -/
def strToNat (s : Str) : Nat :=
  s.foldl (fun a c => 10 * a + (c.toNat - 48)) 0

/-- `VALID_VAT_CODES = ["0", "1", "2", "3", "5", "6"]`. -/
def VALID_VAT_CODES : List Str :=
  [['0'], ['1'], ['2'], ['3'], ['5'], ['6']]

/-- `VALID_ACCOUNT_RANGES`, with each range key `"start-end"` already
split into its endpoints as `validate_account_number` parses it. -/
def VALID_ACCOUNT_RANGES : List (Nat × Nat × String) :=
  [ (1000, 1999, "Assets"),
    (2000, 2999, "Liabilities"),
    (3000, 3999, "Equity"),
    (4000, 4999, "Revenue"),
    (5000, 5999, "Cost of goods sold"),
    (6000, 6999, "Operating expenses"),
    (7000, 7999, "Financial items"),
    (8000, 8999, "Other income/expenses") ]

/-- Embedding of `validate_account_number`: the falsy check (`None` or
empty string), then strip, the `isdigit` check, the length check, and the
range scan. -/
def validate_account_number (account_number : Option Str) : Bool × String :=
  match account_number with
  | none => (false, "Account number is missing")
  | some s =>
    if s.isEmpty then (false, "Account number is missing")
    else
      let t := pyStrip s
      if !pyIsDigit t then (false, "Account number must be numeric")
      else if t.length ≠ 4 then (false, "Account number must be 4 digits")
      else
        let n := strToNat t
        if VALID_ACCOUNT_RANGES.any (fun r => decide (r.1 ≤ n) && decide (n ≤ r.2.1))
        then (true, "Valid")
        else (false, "Account number " ++ String.mk t ++ " not in valid range")

/-- Embedding of `validate_vat_code`. -/
def validate_vat_code (vat_code : Option Str) : Bool × String :=
  match vat_code with
  | none => (false, "VAT code is missing")
  | some s =>
    if s.isEmpty then (false, "VAT code is missing")
    else
      let t := pyStrip s
      if t ∈ VALID_VAT_CODES then (true, "Valid")
      else
        (false, "VAT code " ++ String.mk t ++ " is not valid. Must be one of: "
          ++ ", ".intercalate (VALID_VAT_CODES.map String.mk))

/-- The dict returned by `validate_suggestion`. -/
structure SuggestionValidation where
  is_valid : Bool
  account_valid : Bool
  vat_valid : Bool
  errors : List String
deriving DecidableEq

/-- Embedding of `validate_suggestion`. -/
def validate_suggestion (account_number vat_code : Option Str) : SuggestionValidation :=
  let a := validate_account_number account_number
  let v := validate_vat_code vat_code
  ⟨a.1 && v.1, a.1, v.1,
    (if a.1 then [] else ["Account: " ++ a.2]) ++
    (if v.1 then [] else ["VAT: " ++ v.2])⟩

/-- `RiskLevel` from `db/models.py`. -/
inductive RiskLevel where
  | low
  | medium
  | high
deriving DecidableEq

/-- Embedding of `check_risk_rules`, with the checks in the source's
order: the confidence threshold for high risk first, then suggestion
validity, then the medium threshold. -/
def check_risk_rules (account_number vat_code : Option Str) (confidence : ℚ) : RiskLevel :=
  if confidence < 1/2 then RiskLevel.high
  else
    let validation := validate_suggestion account_number vat_code
    if validation.is_valid = false then RiskLevel.high
    else if confidence < 7/10 then RiskLevel.medium
    else RiskLevel.low

/-! ### Confidence scoring (`confidence_scoring_service.py`) -/

/-- Floor of a rational, through flooring integer division. -/
def ratFloor (q : ℚ) : ℤ :=
  q.num.fdiv (q.den : ℤ)

/-- Round a rational to the nearest integer, ties to even — the rounding
of Python's built-in `round`. -/
def roundHalfEven (q : ℚ) : ℤ :=
  let f := ratFloor q
  let r := q - (f : ℚ)
  if r < 1/2 then f
  else if 1/2 < r then f + 1
  else if f % 2 = 0 then f else f + 1

/-- Python's `round(q, 2)`: round to the nearest multiple of 1/100. -/
def round2 (q : ℚ) : ℚ :=
  (roundHalfEven (q * 100) : ℚ) / 100

/-- Embedding of `calculate_final_confidence`: start from the AI
confidence, halve once per invalid code, clamp to [0, 1], round to two
decimal places. -/
def calculate_final_confidence (ai_confidence : ℚ)
    (account_number vat_code : Option Str) : ℚ :=
  let confidence := ai_confidence
  let validation := validate_suggestion account_number vat_code
  let confidence := if validation.account_valid = false then confidence * (1/2) else confidence
  let confidence := if validation.vat_valid = false then confidence * (1/2) else confidence
  let confidence := max 0 (min 1 confidence)
  round2 confidence

/-! ### Dictionary lemmas -/

theorem dictUpdate_nil {V : Type} (c : Ctx V) : dictUpdate c [] = c := rfl

theorem dictUpdate_cons {V : Type} (c : Ctx V) (p : String × V) (rest : Ctx V) :
    dictUpdate c (p :: rest) = dictUpdate (setKey c p.1 p.2) rest := rfl

theorem keysCtx_nil {V : Type} : keysCtx ([] : Ctx V) = [] := rfl

theorem keysCtx_cons {V : Type} (p : String × V) (rest : Ctx V) :
    keysCtx (p :: rest) = p.1 :: keysCtx rest := rfl

theorem lookupCtx_eq_none_iff {V : Type} (c : Ctx V) (k : String) :
    lookupCtx c k = none ↔ k ∉ keysCtx c := by
  induction c with
  | nil => simp [lookupCtx, keysCtx]
  | cons p rest ih =>
    obtain ⟨k', v⟩ := p
    by_cases h : k' = k
    · subst h
      simp [lookupCtx, keysCtx]
    · simp [lookupCtx, keysCtx, h, ih, Ne.symm h]

theorem mem_keysCtx_iff {V : Type} (c : Ctx V) (k : String) :
    k ∈ keysCtx c ↔ ∃ v, lookupCtx c k = some v := by
  rw [← not_iff_not]
  push_neg
  rw [← lookupCtx_eq_none_iff c k]
  cases lookupCtx c k <;> simp

theorem lookup_setKey {V : Type} (c : Ctx V) (k k' : String) (v : V) :
    lookupCtx (setKey c k v) k' = if k = k' then some v else lookupCtx c k' := by
  induction c with
  | nil => simp [setKey, lookupCtx]
  | cons p rest ih =>
    obtain ⟨k₀, v₀⟩ := p
    by_cases h : k₀ = k
    · subst h
      by_cases h' : k₀ = k'
      · subst h'
        simp [setKey, lookupCtx]
      · simp [setKey, lookupCtx, h']
    · by_cases h' : k₀ = k'
      · subst h'
        have hkk : ¬k = k₀ := fun hh => h hh.symm
        simp [setKey, lookupCtx, h, hkk]
      · simp [setKey, lookupCtx, h, h', ih]

theorem mem_keys_setKey {V : Type} (c : Ctx V) (k k' : String) (v : V) :
    k' ∈ keysCtx (setKey c k v) ↔ k' = k ∨ k' ∈ keysCtx c := by
  rw [mem_keysCtx_iff, lookup_setKey]
  by_cases h : k = k'
  · subst h
    simp
  · have h2 : ¬k' = k := fun hh => h hh.symm
    rw [if_neg h, ← mem_keysCtx_iff]
    simp [h2]

theorem mem_keys_dictUpdate {V : Type} (u c : Ctx V) (k : String) :
    k ∈ keysCtx (dictUpdate c u) ↔ k ∈ keysCtx u ∨ k ∈ keysCtx c := by
  induction u generalizing c with
  | nil => simp [dictUpdate_nil, keysCtx]
  | cons p rest ih =>
    rw [dictUpdate_cons, ih, keysCtx_cons, mem_keys_setKey]
    simp
    tauto

theorem lookup_dictUpdate {V : Type} (u c : Ctx V) (k : String)
    (hu : (keysCtx u).Nodup) :
    lookupCtx (dictUpdate c u) k =
      if k ∈ keysCtx u then lookupCtx u k else lookupCtx c k := by
  induction u generalizing c with
  | nil => simp [dictUpdate_nil, keysCtx]
  | cons p rest ih =>
    obtain ⟨k₀, v₀⟩ := p
    rw [keysCtx_cons] at hu
    have h₀ : k₀ ∉ keysCtx rest := (List.nodup_cons.mp hu).1
    have hrest : (keysCtx rest).Nodup := (List.nodup_cons.mp hu).2
    rw [dictUpdate_cons, ih _ hrest, keysCtx_cons]
    by_cases hk : k = k₀
    · subst hk
      rw [if_neg h₀, lookup_setKey, if_pos rfl, if_pos (List.mem_cons_self _ _)]
      simp [lookupCtx]
    · have hne2 : ¬k₀ = k := fun hh => hk hh.symm
      by_cases hmem : k ∈ keysCtx rest
      · rw [if_pos hmem, if_pos (List.mem_cons_of_mem _ hmem)]
        simp [lookupCtx, hne2]
      · have hnc : ¬k ∈ (k₀, v₀).1 :: keysCtx rest := by simp [hk, hmem]
        rw [if_neg hmem, if_neg hnc, lookup_setKey, if_neg hne2]

/-! ### Lemmas about output validation and the atomic merge -/

theorem validateOutput_ok {V : Type} (u : Ctx V) (allowed : List String)
    (h : ∀ k ∈ keysCtx u, k ∈ allowed) : validateOutput u allowed = Except.ok () := by
  induction u with
  | nil => rfl
  | cons p rest ih =>
    obtain ⟨k₀, v₀⟩ := p
    have hk : k₀ ∈ allowed := h k₀ (by simp [keysCtx])
    have hrest : ∀ k ∈ keysCtx rest, k ∈ allowed := by
      intro k hkmem
      exact h k (by simp [keysCtx] at hkmem ⊢; exact Or.inr hkmem)
    simp [validateOutput, hk, ih hrest]

theorem validateOutput_error {V : Type} (u : Ctx V) (allowed : List String)
    (h : ∃ k ∈ keysCtx u, k ∉ allowed) :
    ∃ k, k ∈ keysCtx u ∧ k ∉ allowed ∧
      validateOutput u allowed
        = Except.error ("Step produced disallowed output key: " ++ k) := by
  induction u with
  | nil => simp [keysCtx] at h
  | cons p rest ih =>
    obtain ⟨k₀, v₀⟩ := p
    by_cases hk : k₀ ∈ allowed
    · have h' : ∃ k ∈ keysCtx rest, k ∉ allowed := by
        obtain ⟨k, hkin, hknot⟩ := h
        rcases (by simpa [keysCtx] using hkin : k = k₀ ∨ k ∈ keysCtx rest) with rfl | hmem
        · exact absurd hk hknot
        · exact ⟨k, hmem, hknot⟩
      obtain ⟨k, h1, h2, h3⟩ := ih h'
      refine ⟨k, ?_, h2, ?_⟩
      · rw [keysCtx_cons]
        exact List.mem_cons_of_mem _ h1
      · rw [show validateOutput ((k₀, v₀) :: rest) allowed = validateOutput rest allowed
          from by simp [validateOutput, hk]]
        exact h3
    · refine ⟨k₀, ?_, hk, ?_⟩
      · rw [keysCtx_cons]
        exact List.mem_cons_self _ _
      · simp [validateOutput, hk]

theorem mergeAndValidate_cases {V : Type} (c u : Ctx V) (allowed : List String)
    (hu : (keysCtx u).Nodup) :
    ((∃ k ∈ keysCtx u, k ∉ allowed) →
       ∃ k, k ∈ keysCtx u ∧ k ∉ allowed ∧
         mergeAndValidate c u allowed
           = Except.error ("Step produced disallowed output key: " ++ k)) ∧
    ((∀ k ∈ keysCtx u, k ∈ allowed) →
       mergeAndValidate c u allowed = Except.ok (dictUpdate c u) ∧
       (∀ k ∈ keysCtx u, lookupCtx (dictUpdate c u) k = lookupCtx u k) ∧
       (∀ k, k ∉ keysCtx u → lookupCtx (dictUpdate c u) k = lookupCtx c k)) := by
  constructor
  · intro h
    obtain ⟨k, h1, h2, h3⟩ := validateOutput_error u allowed h
    exact ⟨k, h1, h2, by simp [mergeAndValidate, h3]⟩
  · intro h
    refine ⟨by simp [mergeAndValidate, validateOutput_ok u allowed h], ?_, ?_⟩
    · intro k hk
      simp [lookup_dictUpdate u c k hu, hk]
    · intro k hk
      simp [lookup_dictUpdate u c k hu, hk]

/-! ### Lemmas about context restriction -/

theorem lookup_filterContext {V : Type} (c : Ctx V) (allowed : List String) (k : String) :
    lookupCtx (filterContext c allowed) k
      = if k ∈ allowed then lookupCtx c k else none := by
  induction allowed with
  | nil => simp [filterContext, lookupCtx]
  | cons a rest ih =>
    by_cases ha : a = k
    · subst ha
      cases hl : lookupCtx c a with
      | none =>
        rw [show filterContext c (a :: rest) = filterContext c rest from by
          simp [filterContext, List.filterMap_cons, hl]]
        rw [ih, if_pos (List.mem_cons_self _ _), hl]
        simp
      | some v =>
        rw [show filterContext c (a :: rest) = (a, v) :: filterContext c rest from by
          simp [filterContext, List.filterMap_cons, hl]]
        simp [lookupCtx, hl]
    · have step : lookupCtx (filterContext c (a :: rest)) k
          = lookupCtx (filterContext c rest) k := by
        cases hl : lookupCtx c a with
        | none =>
          rw [show filterContext c (a :: rest) = filterContext c rest from by
            simp [filterContext, List.filterMap_cons, hl]]
        | some v =>
          rw [show filterContext c (a :: rest) = (a, v) :: filterContext c rest from by
            simp [filterContext, List.filterMap_cons, hl]]
          simp [lookupCtx, ha]
      rw [step, ih]
      by_cases hm : k ∈ rest
      · rw [if_pos hm, if_pos (List.mem_cons_of_mem _ hm)]
      · have hka : ¬k = a := fun hh => ha hh.symm
        have hnc : ¬k ∈ a :: rest := by simp [hm, hka]
        rw [if_neg hm, if_neg hnc]

theorem mem_keys_filterContext {V : Type} (c : Ctx V) (allowed : List String) (k : String) :
    k ∈ keysCtx (filterContext c allowed) ↔ k ∈ allowed ∧ k ∈ keysCtx c := by
  rw [mem_keysCtx_iff, mem_keysCtx_iff]
  by_cases hk : k ∈ allowed <;> simp [lookup_filterContext, hk]

/-! ### Structural lemmas about the engine -/

theorem runWorkflow_nil {V : Type} (t : String) (c : Ctx V) :
    runWorkflow t c [] = ([], c, none) := rfl

theorem runWorkflow_cons {V : Type} (t : String) (c : Ctx V) (s : StepDef V)
    (rest : List (StepDef V)) :
    runWorkflow t c (s :: rest) =
      match stepResult s c with
      | Except.error e =>
        ([⟨t, s.name, s.allowed_inputs.filter (fun k => hasKey c k), [], false, some e⟩],
          c, some e)
      | Except.ok u =>
        ((⟨t, s.name, s.allowed_inputs.filter (fun k => hasKey c k),
            keysCtx u, true, none⟩ : AuditEvent) :: (runWorkflow t (dictUpdate c u) rest).1,
          (runWorkflow t (dictUpdate c u) rest).2) := by
  cases hr : s.run (filterContext c s.allowed_inputs) with
  | error e => simp [runWorkflow, stepResult, hr]
  | ok u =>
    cases hv : validateOutput u s.allowed_outputs with
    | error e => simp [runWorkflow, stepResult, hr, hv]
    | ok w => simp [runWorkflow, stepResult, hr, hv]

theorem runWorkflow_append {V : Type} (t : String) (c : Ctx V)
    (pre post : List (StepDef V)) :
    runWorkflow t c (pre ++ post) =
      match runWorkflow t c pre with
      | (evs, c1, none) =>
        (evs ++ (runWorkflow t c1 post).1, (runWorkflow t c1 post).2)
      | (evs, c1, some e) => (evs, c1, some e) := by
  induction pre generalizing c with
  | nil => simp [runWorkflow_nil]
  | cons s rest ih =>
    rw [List.cons_append, runWorkflow_cons, runWorkflow_cons]
    cases hr : stepResult s c with
    | error e => rfl
    | ok u =>
      simp only
      rw [ih (dictUpdate c u)]
      cases hrec : runWorkflow t (dictUpdate c u) rest with
      | mk evs2 p =>
        obtain ⟨c2, o⟩ := p
        cases o <;> simp

/-! ### Claim theorems about the engine -/

/-- C1: for every context, step output mapping and declared allowed-output
list, `mergeAndValidate` (the `_validate_output` check followed by
`context.update` in `run_workflow`) is all-or-nothing: if some output key
is not allowed it fails with the contract-violation error naming that
key, and — failure producing no merged context in this embedding — no key
of the outputs is written; if every output key is allowed, every output
key is written into the context, overwriting any prior value, and the
remaining keys keep their prior values. -/
theorem merge_and_validate_all_or_nothing {V : Type} (c u : Ctx V) (allowed : List String)
    (hu : (keysCtx u).Nodup) :
    ((∃ k ∈ keysCtx u, k ∉ allowed) →
       ∃ k, k ∈ keysCtx u ∧ k ∉ allowed ∧
         mergeAndValidate c u allowed
           = Except.error ("Step produced disallowed output key: " ++ k)) ∧
    ((∀ k ∈ keysCtx u, k ∈ allowed) →
       mergeAndValidate c u allowed = Except.ok (dictUpdate c u) ∧
       (∀ k ∈ keysCtx u, lookupCtx (dictUpdate c u) k = lookupCtx u k) ∧
       (∀ k, k ∉ keysCtx u → lookupCtx (dictUpdate c u) k = lookupCtx c k)) :=
  mergeAndValidate_cases c u allowed hu

theorem merge_and_validate_all_or_nothing_witness :
    mergeAndValidate [("a", (1 : Nat))] [("x", 2), ("y", 3)] ["x", "y"]
      = Except.ok [("a", 1), ("x", 2), ("y", 3)] := by
  have h := (merge_and_validate_all_or_nothing [("a", (1 : Nat))] [("x", 2), ("y", 3)]
    ["x", "y"] (by decide)).2 (by decide)
  rw [h.1]
  rfl

/-- C3: restriction returns a mapping whose key set is exactly the
intersection of the context's keys with the allowed keys, each key mapped
to its value in the context; allowed keys absent from the context are
omitted without error and no key outside the allowed list appears. -/
theorem restrict_is_exact_intersection {V : Type} (c : Ctx V) (allowed : List String)
    (k : String) :
    (k ∈ keysCtx (filterContext c allowed) ↔ k ∈ allowed ∧ k ∈ keysCtx c) ∧
    lookupCtx (filterContext c allowed) k
      = (if k ∈ allowed then lookupCtx c k else none) :=
  ⟨mem_keys_filterContext c allowed k, lookup_filterContext c allowed k⟩

theorem restrict_is_exact_intersection_witness :
    lookupCtx (filterContext [("a", (1 : Nat)), ("b", 2)] ["a", "z"]) "a" = some 1 ∧
    ¬"b" ∈ keysCtx (filterContext [("a", (1 : Nat)), ("b", 2)] ["a", "z"]) := by
  constructor
  · have h := (restrict_is_exact_intersection [("a", (1 : Nat)), ("b", 2)] ["a", "z"] "a").2
    rw [h]
    decide
  · have h := (restrict_is_exact_intersection [("a", (1 : Nat)), ("b", 2)] ["a", "z"] "b").1
    rw [h]
    decide

/-- C2: whenever the steps before `s` all succeed (producing context `c1`
and events `evs`) and `s` fails — its runner raising, or its output
failing contract validation — the run emits exactly one more audit event,
for `s`, with `success = false`, empty output field names, the error
message, and the input field names computed on the context before `s`
ran; the event is part of the trail when the error propagates, and no
subsequent step is run or audited. -/
theorem failing_step_emits_single_failure_event {V : Type} (t : String) (c : Ctx V)
    (pre : List (StepDef V)) (evs : List AuditEvent) (c1 : Ctx V) (s : StepDef V)
    (rest : List (StepDef V)) (e : String)
    (hpre : runWorkflow t c pre = (evs, c1, none))
    (hfail : stepResult s c1 = Except.error e) :
    runWorkflow t c (pre ++ s :: rest) =
      (evs ++ [⟨t, s.name, s.allowed_inputs.filter (fun k => hasKey c1 k), [], false, some e⟩],
        c1, some e) := by
  rw [runWorkflow_append, hpre]
  show (evs ++ (runWorkflow t c1 (s :: rest)).1, (runWorkflow t c1 (s :: rest)).2) = _
  rw [runWorkflow_cons, hfail]

theorem failing_step_emits_single_failure_event_witness :
    runWorkflow "t" ([] : Ctx Nat)
        [⟨"s1", [], [], fun _ => Except.error "boom"⟩,
          ⟨"s2", [], [], fun _ => Except.ok []⟩] =
      ([⟨"t", "s1", [], [], false, some "boom"⟩], [], some "boom") := by
  have h := failing_step_emits_single_failure_event "t" ([] : Ctx Nat) [] [] []
    ⟨"s1", [], [], fun _ => Except.error "boom"⟩
    [⟨"s2", [], [], fun _ => Except.ok []⟩] "boom" rfl rfl
  exact h

/-- C8: running the pipeline with an empty step list returns the initial
context unchanged and emits zero audit events, for every trigger and
initial context. -/
theorem empty_pipeline_is_noop {V : Type} (t : String) (c : Ctx V) :
    runWorkflow t c [] = ([], c, none) :=
  runWorkflow_nil t c

/-- C9: if a run aborts with error `e`, then it aborted at the first
failing step (index `k`), and the context held by the caller at that
moment is exactly the initial context updated, in order, with the output
mappings of the successful steps before `k`; nothing produced by the
failing step has been merged. -/
theorem abort_keeps_only_successful_merges {V : Type} (t : String) (c : Ctx V)
    (steps : List (StepDef V)) (evs : List AuditEvent) (c' : Ctx V) (e : String)
    (h : runWorkflow t c steps = (evs, c', some e)) :
    ∃ k, ∃ hk : k < steps.length, ∃ us,
      stepOutputs (List.take k steps) c = some us ∧
      c' = ctxFold c us ∧
      stepResult (steps.get ⟨k, hk⟩) c' = Except.error e := by
  induction steps generalizing c evs with
  | nil =>
    rw [runWorkflow_nil] at h
    simp at h
  | cons s rest ih =>
    rw [runWorkflow_cons] at h
    cases hr : stepResult s c with
    | error e0 =>
      rw [hr] at h
      simp only [Prod.mk.injEq, Option.some.injEq] at h
      obtain ⟨he, hc, hee⟩ := h
      refine ⟨0, by simp, [], rfl, ?_, ?_⟩
      · rw [← hc]
        rfl
      · rw [← hc]
        show stepResult s c = Except.error e
        rw [hr, hee]
    | ok u =>
      rw [hr] at h
      have hr2 : (runWorkflow t (dictUpdate c u) rest).2 = (c', some e) := by
        have h2 := congrArg (fun p => p.2) h
        simpa using h2
      have hrec : runWorkflow t (dictUpdate c u) rest
          = ((runWorkflow t (dictUpdate c u) rest).1, c', some e) := by
        calc runWorkflow t (dictUpdate c u) rest
            = ((runWorkflow t (dictUpdate c u) rest).1,
                (runWorkflow t (dictUpdate c u) rest).2) := rfl
          _ = ((runWorkflow t (dictUpdate c u) rest).1, c', some e) := by rw [hr2]
      obtain ⟨k, hk, us, ho, hcf, hse⟩ :=
        ih (dictUpdate c u) ((runWorkflow t (dictUpdate c u) rest).1) hrec
      refine ⟨k + 1, Nat.succ_lt_succ hk, u :: us, ?_, ?_, ?_⟩
      · rw [List.take_succ_cons]
        simp [stepOutputs, hr, ho]
      · rw [hcf]
        rfl
      · exact hse

theorem abort_keeps_only_successful_merges_witness :
    ∃ k, ∃ hk : k <
        ([⟨"s1", [], [], fun _ => Except.error "boom"⟩] : List (StepDef Nat)).length,
      ∃ us,
        stepOutputs
            (List.take k ([⟨"s1", [], [], fun _ => Except.error "boom"⟩] : List (StepDef Nat)))
            [] = some us ∧
        ([] : Ctx Nat) = ctxFold [] us ∧
        stepResult
            (([⟨"s1", [], [], fun _ => Except.error "boom"⟩] : List (StepDef Nat)).get ⟨k, hk⟩)
            [] = Except.error "boom" :=
  abort_keeps_only_successful_merges "t" ([] : Ctx Nat)
    [⟨"s1", [], [], fun _ => Except.error "boom"⟩]
    [⟨"t", "s1", [], [], false, some "boom"⟩] [] "boom" rfl

/-- C10: no engine operation removes a context key — every key of the
context the run started from is still present in the context the caller
holds afterwards, whether the run completed or aborted. -/
theorem context_keys_never_removed {V : Type} (t : String) (c : Ctx V)
    (steps : List (StepDef V)) (k : String) (h : k ∈ keysCtx c) :
    k ∈ keysCtx (runWorkflow t c steps).2.1 := by
  induction steps generalizing c with
  | nil => simpa [runWorkflow_nil] using h
  | cons s rest ih =>
    rw [runWorkflow_cons]
    cases hr : stepResult s c with
    | error e => simpa using h
    | ok u =>
      exact ih (dictUpdate c u) ((mem_keys_dictUpdate u c k).mpr (Or.inr h))

/-! ### Lemmas about validation and scoring -/

theorem int_fdiv_one (n : ℤ) : n.fdiv 1 = n := by
  cases n with
  | ofNat m =>
    cases m with
    | zero => rfl
    | succ m2 =>
      show Int.ofNat (Nat.succ m2 / 1) = Int.ofNat (Nat.succ m2)
      rw [Nat.div_one]
  | negSucc m =>
    show Int.negSucc (m / 1) = Int.negSucc m
    rw [Nat.div_one]

theorem round2_eq_of_eq_int (q : ℚ) (n : ℤ) (h : q * 100 = (n : ℚ)) :
    round2 q = (n : ℚ) / 100 := by
  unfold round2 roundHalfEven ratFloor
  rw [h, Rat.num_intCast, Rat.den_intCast]
  norm_num [int_fdiv_one]

theorem account_range_any_iff (n : Nat) :
    (VALID_ACCOUNT_RANGES.any
        (fun r => decide (r.1 ≤ n) && decide (n ≤ r.2.1)) = true)
      ↔ 1000 ≤ n ∧ n ≤ 8999 := by
  simp [VALID_ACCOUNT_RANGES]
  omega

theorem check_risk_rules_eq (account_number vat_code : Option Str) (confidence : ℚ) :
    check_risk_rules account_number vat_code confidence =
      if confidence < 1/2 ∨ (validate_account_number account_number).1 = false
          ∨ (validate_vat_code vat_code).1 = false
      then RiskLevel.high
      else if confidence < 7/10 then RiskLevel.medium
      else RiskLevel.low := by
  cases h2 : (validate_account_number account_number).1 <;>
    cases h3 : (validate_vat_code vat_code).1 <;>
    by_cases h1 : confidence < 1/2 <;>
    simp [check_risk_rules, validate_suggestion, h1, h2, h3]

theorem calculate_final_confidence_eq (ai_confidence : ℚ)
    (account_number vat_code : Option Str) :
    calculate_final_confidence ai_confidence account_number vat_code =
      round2 (max 0 (min 1
        (ai_confidence
          * (if (validate_account_number account_number).1 = false then (1/2 : ℚ) else 1)
          * (if (validate_vat_code vat_code).1 = false then (1/2 : ℚ) else 1)))) := by
  cases h2 : (validate_account_number account_number).1 <;>
    cases h3 : (validate_vat_code vat_code).1 <;>
    simp [calculate_final_confidence, validate_suggestion, h2, h3]

theorem context_keys_never_removed_witness :
    "a" ∈ keysCtx
      (runWorkflow "t" [("a", (1 : Nat))]
        [⟨"s1", [], ["b"], fun _ => Except.ok [("b", 2)]⟩]).2.1 :=
  context_keys_never_removed "t" [("a", (1 : Nat))]
    [⟨"s1", [], ["b"], fun _ => Except.ok [("b", 2)]⟩] "a" (by decide)

theorem validate_account_number_fst (s : Str) (hemp : s.isEmpty = false) :
    (validate_account_number (some s)).1 =
      (pyIsDigit (pyStrip s) && decide ((pyStrip s).length = 4) &&
        VALID_ACCOUNT_RANGES.any
          (fun r => decide (r.1 ≤ strToNat (pyStrip s))
            && decide (strToNat (pyStrip s) ≤ r.2.1))) := by
  by_cases h1 : pyIsDigit (pyStrip s)
  · by_cases h2 : (pyStrip s).length = 4
    · by_cases h3 : VALID_ACCOUNT_RANGES.any
          (fun r => decide (r.1 ≤ strToNat (pyStrip s))
            && decide (strToNat (pyStrip s) ≤ r.2.1)) = true <;>
        simp [validate_account_number, hemp, h1, h2, h3]
    · simp [validate_account_number, hemp, h1, h2]
  · simp [validate_account_number, hemp, h1]

/-! ### Claim theorems about validation and scoring -/

/-- C4: the risk level is `high` when the final confidence is below 0.5
or either code is invalid, else `medium` when the final confidence is
below 0.7, else `low`; in the embedded `check_risk_rules` the
confidence-below-0.5 test is, as in the source, the first check
performed. -/
theorem risk_level_precedence (account_number vat_code : Option Str) (confidence : ℚ) :
    check_risk_rules account_number vat_code confidence =
      if confidence < 1/2 ∨ (validate_account_number account_number).1 = false
          ∨ (validate_vat_code vat_code).1 = false
      then RiskLevel.high
      else if confidence < 7/10 then RiskLevel.medium
      else RiskLevel.low :=
  check_risk_rules_eq account_number vat_code confidence

/-- C5: the final confidence is the AI confidence multiplied by 0.5 once
per invalid code (independently, so 0.25 when both are invalid), clamped
to [0, 1], and rounded to two decimal places. -/
theorem final_confidence_penalties (ai_confidence : ℚ)
    (account_number vat_code : Option Str) :
    calculate_final_confidence ai_confidence account_number vat_code =
      round2 (max 0 (min 1
        (ai_confidence
          * (if (validate_account_number account_number).1 = false then (1/2 : ℚ) else 1)
          * (if (validate_vat_code vat_code).1 = false then (1/2 : ℚ) else 1)))) :=
  calculate_final_confidence_eq ai_confidence account_number vat_code

/-- C6 counterexample: on the input `" 1000"` the code judges the primary
code valid (it strips whitespace first), while the claimed
characterisation — non-empty, all digits, exactly 4 characters, value in
[1000, 8999], read on the string as given — is false for that input. -/
theorem primary_code_validity_counterexample :
    (validate_account_number (some [' ', '1', '0', '0', '0'])).1 = true ∧
    ¬(([' ', '1', '0', '0', '0'] : Str) ≠ [] ∧
      ([' ', '1', '0', '0', '0'] : Str).all Char.isDigit = true ∧
      ([' ', '1', '0', '0', '0'] : Str).length = 4 ∧
      1000 ≤ strToNat [' ', '1', '0', '0', '0'] ∧
      strToNat [' ', '1', '0', '0', '0'] ≤ 8999) := by
  decide

/-- C6 (amended): the primary code is judged valid if and only if, after
stripping leading and trailing whitespace (with the absent case invalid),
the stripped string consists entirely of digits, is exactly 4 characters
long, and its numeric value lies between 1000 and 8999 inclusive. -/
theorem primary_code_validity_amended (account_number : Option Str) :
    (validate_account_number account_number).1 = true ↔
      ∃ s, account_number = some s ∧
        (pyStrip s).all Char.isDigit = true ∧
        (pyStrip s).length = 4 ∧
        1000 ≤ strToNat (pyStrip s) ∧ strToNat (pyStrip s) ≤ 8999 := by
  cases account_number with
  | none => simp [validate_account_number]
  | some s =>
    cases s with
    | nil =>
      simp [validate_account_number]
      decide
    | cons a s2 =>
      rw [validate_account_number_fst (a :: s2) rfl]
      rw [Bool.and_eq_true, Bool.and_eq_true]
      constructor
      · rintro ⟨⟨hdig, hlen⟩, hrange⟩
        have hall : (pyStrip (a :: s2)).all Char.isDigit = true := by
          unfold pyIsDigit at hdig
          simp only [Bool.and_eq_true] at hdig
          exact hdig.2
        have hlen2 : (pyStrip (a :: s2)).length = 4 := of_decide_eq_true hlen
        have hr := (account_range_any_iff (strToNat (pyStrip (a :: s2)))).mp hrange
        exact ⟨a :: s2, rfl, hall, hlen2, hr.1, hr.2⟩
      · rintro ⟨s3, hs3, hall, hlen, hlo, hhi⟩
        have hs : s3 = a :: s2 := by
          injection hs3 with h
          exact h.symm
        subst hs
        have hne : (pyStrip (a :: s2)).isEmpty = false := by
          cases hps : pyStrip (a :: s2) with
          | nil => rw [hps] at hlen; simp at hlen
          | cons b l => rfl
        refine ⟨⟨?_, by simpa using hlen⟩, ?_⟩
        · unfold pyIsDigit
          rw [hne, hall]
          rfl
        · exact (account_range_any_iff (strToNat (pyStrip (a :: s2)))).mpr ⟨hlo, hhi⟩

theorem primary_code_validity_amended_witness :
    (validate_account_number (some ['1', '0', '0', '0'])).1 = true :=
  (primary_code_validity_amended (some ['1', '0', '0', '0'])).mpr
    ⟨['1', '0', '0', '0'], rfl, by decide, by decide, by decide, by decide⟩

/-- C7: with AI confidence 0.9, primary code `"9999"` and secondary code
`"1"`, the final confidence is 0.45 and the risk level is high; with AI
confidence 0.95, primary code `"4010"` and secondary code `"2"`, the
final confidence is 0.95 and the risk level is low. -/
theorem scoring_concrete_cases :
    calculate_final_confidence (9/10) (some ['9', '9', '9', '9']) (some ['1']) = 45/100 ∧
    check_risk_rules (some ['9', '9', '9', '9']) (some ['1'])
        (calculate_final_confidence (9/10) (some ['9', '9', '9', '9']) (some ['1']))
      = RiskLevel.high ∧
    calculate_final_confidence (95/100) (some ['4', '0', '1', '0']) (some ['2']) = 95/100 ∧
    check_risk_rules (some ['4', '0', '1', '0']) (some ['2'])
        (calculate_final_confidence (95/100) (some ['4', '0', '1', '0']) (some ['2']))
      = RiskLevel.low := by
  have hA : (validate_account_number (some ['9', '9', '9', '9'])).1 = false := by decide
  have hB : (validate_vat_code (some ['1'])).1 = true := by decide
  have hC : (validate_account_number (some ['4', '0', '1', '0'])).1 = true := by decide
  have hD : (validate_vat_code (some ['2'])).1 = true := by decide
  have h1 : calculate_final_confidence (9/10) (some ['9', '9', '9', '9']) (some ['1'])
      = 45/100 := by
    rw [calculate_final_confidence_eq, hA, hB]
    norm_num
    rw [round2_eq_of_eq_int (9/20 : ℚ) 45 (by norm_num)]
    norm_num
  have h3 : calculate_final_confidence (95/100) (some ['4', '0', '1', '0']) (some ['2'])
      = 95/100 := by
    rw [calculate_final_confidence_eq, hC, hD]
    norm_num
    rw [round2_eq_of_eq_int (19/20 : ℚ) 95 (by norm_num)]
    norm_num
  refine ⟨h1, ?_, h3, ?_⟩
  · rw [h1, check_risk_rules_eq,
      if_pos (Or.inl (by norm_num : (45/100 : ℚ) < 1/2))]
  · rw [h3, check_risk_rules_eq,
      if_neg (by simp [hC, hD]; norm_num),
      if_neg (by norm_num : ¬(95/100 : ℚ) < 7/10)]

end Borge
